import Mathlib

/-!
Verification of the EntropPy correction solver against its specification.

Strings are modelled as lists of Unicode characters (Python `str`); machine
integers are `Nat`/`Int`.  Word sets and the derived `BoundaryIndex` structures
are modelled by the underlying word list: the index pre-computation in
`entroppy/core/boundaries/types.py` builds `prefix_index[p]` as exactly the set
of words having `p` as a prefix (and similarly for suffixes and substrings), so
each index query is embedded as the corresponding scan over the word list.
External collaborators (the `wordfreq` library, compiled wildcard regexes) are
passed as oracle functions.
-/

/-- Python strings, modelled as lists of characters. -/
abbrev Str := List Char

/-- Python's substring test `sub in s`. -/
def pyIn (sub : Str) : Str → Bool
  | [] => sub.isEmpty
  | c :: rest => sub.isPrefixOf (c :: rest) || pyIn sub rest

/-- Boundary types, from `entroppy/core/boundaries/types.py` (`BoundaryType`). -/
inductive BoundaryType
  | NONE
  | LEFT
  | RIGHT
  | BOTH
deriving DecidableEq, Repr, Inhabited

/-- A correction triple `(typo, word, boundary)`, from `entroppy/core/types.py`. -/
abbrev Correction := Str × Str × BoundaryType

/-- Rejection reasons, from `entroppy/resolution/history.py` (`RejectionReason`). -/
inductive RejectionReason
  | COLLISION_AMBIGUOUS
  | TOO_SHORT
  | BLOCKED_BY_CONFLICT
  | PLATFORM_CONSTRAINT
  | PATTERN_VALIDATION_FAILED
  | EXCLUDED_BY_PATTERN
  | FALSE_TRIGGER
deriving DecidableEq, Repr, Inhabited

/-- `would_trigger_at_start` from `entroppy/core/boundaries/detection.py`:
the typo is a prefix of some word of the indexed set, excluding exact matches.
`prefix_index` (built in `entroppy/core/boundaries/types.py`) has only the
nonempty keys `word[:i]`, `i ≥ 1`, so the query is `False` for the empty typo;
for a nonempty typo, `prefix_index[typo]` holds exactly the words with prefix
`typo`, and the check is `any(word != typo for word in matching_words)`. -/
def would_trigger_at_start (typo : Str) (wordSet : List Str) : Bool :=
  !typo.isEmpty && wordSet.any fun w => typo.isPrefixOf w && w != typo

/-- `would_trigger_at_end` from `entroppy/core/boundaries/detection.py`:
the typo is a suffix of some indexed word, excluding exact matches.
`suffix_index` has only the nonempty keys `word[i:]`, `i < len(word)`, so the
query is `False` for the empty typo. -/
def would_trigger_at_end (typo : Str) (wordSet : List Str) : Bool :=
  !typo.isEmpty && wordSet.any fun w => typo.isSuffixOf w && w != typo

/-- `is_substring_of_any` from `entroppy/core/boundaries/detection.py`: the
fast path consults `substring_set` (all proper substrings of indexed words) and
the fallback scans `word_set` for `typo in word and typo != word`; together
they decide exactly this predicate. -/
def is_substring_of_any (typo : Str) (wordSet : List Str) : Bool :=
  wordSet.any fun w => pyIn typo w && typo != w

/-- `_check_typo_in_target_word` from
`entroppy/resolution/boundary_selection.py` (an identical copy lives in
`entroppy/resolution/boundaries/utils.py`): returns the
(prefFlag, sufFlag, midFlag) relationship of the typo to the target word,
each excluding the exact match, the third also excluding the first two. -/
def _check_typo_in_target_word (typo : Str) (targetWord : Option Str) :
    Bool × Bool × Bool :=
  match targetWord with
  | none => (false, false, false)
  | some w =>
    let prefFlag := typo.isPrefixOf w && typo != w
    let sufFlag := typo.isSuffixOf w && typo != w
    let midFlag := pyIn typo w && typo != w && !prefFlag && !sufFlag
    (prefFlag, sufFlag, midFlag)

/-- `_would_cause_false_trigger` from
`entroppy/resolution/boundary_selection.py` (the `return_details` plumbing and
debug logging carry no information and are dropped; the `else` branch for an
unknown boundary is unreachable because `BoundaryType` is total). -/
def _would_cause_false_trigger (typo : Str) (boundary : BoundaryType)
    (validationWords sourceWords : List Str) (targetWord : Option Str) : Bool :=
  let tgt := _check_typo_in_target_word typo targetWord
  let startTgt := tgt.1
  let endTgt := tgt.2.1
  let subTgt := tgt.2.2
  let startVal := would_trigger_at_start typo validationWords
  let endVal := would_trigger_at_end typo validationWords
  let subVal := is_substring_of_any typo validationWords
  let startSrc := would_trigger_at_start typo sourceWords
  let endSrc := would_trigger_at_end typo sourceWords
  let subSrc := is_substring_of_any typo sourceWords
  let wouldTriggerStart := startTgt || startVal || startSrc
  let wouldTriggerEnd := endTgt || endVal || endSrc
  let isSubstring := subTgt || subVal || subSrc
  match boundary with
  | BoundaryType.NONE => isSubstring
  | BoundaryType.LEFT => wouldTriggerStart || startTgt || startVal || startSrc
  | BoundaryType.RIGHT => wouldTriggerEnd || endTgt || endVal || endSrc
  | BoundaryType.BOTH => false

/-- `_determine_boundary_order` from
`entroppy/resolution/boundary_selection.py`.  The Python guard
`_check_typo_in_target_word(typo, word) if word else (False, False, False)`
treats both `None` and the empty string as falsy. -/
def _determine_boundary_order (typo : Str) (word : Option Str) :
    List BoundaryType × (Bool × Bool × Bool) :=
  let rel :=
    match word with
    | none => (false, false, false)
    | some w =>
      if w = [] then (false, false, false)
      else _check_typo_in_target_word typo (some w)
  let order :=
    if rel.2.1 then [BoundaryType.NONE, BoundaryType.RIGHT, BoundaryType.BOTH]
    else if rel.1 then [BoundaryType.NONE, BoundaryType.LEFT, BoundaryType.BOTH]
    else if rel.2.2 then [BoundaryType.NONE, BoundaryType.BOTH]
    else [BoundaryType.NONE, BoundaryType.LEFT, BoundaryType.RIGHT, BoundaryType.BOTH]
  (order, rel)

/-- `choose_boundary_for_typo` from
`entroppy/resolution/boundary_selection.py`: try the boundaries in the order
from `_determine_boundary_order`, return the first that does not cause a false
trigger, and fall back to `BOTH` when the loop exhausts (debug logging
dropped). -/
def choose_boundary_for_typo (typo : Str) (validationWords sourceWords : List Str)
    (word : Option Str) : BoundaryType :=
  let order := (_determine_boundary_order typo word).1
  match order.find?
      (fun b => !_would_cause_false_trigger typo b validationWords sourceWords word) with
  | some b => b
  | none => BoundaryType.BOTH

/-- The spec's condition for the `NONE` boundary causing a false trigger,
written from the spec's words for claim C1: the typo appears as a
non-identical substring of any validation or source word, or is a
(non-identical) prefix or suffix of the target word itself. -/
def claimNoneFalseTrigger (typo : Str) (validationWords sourceWords : List Str)
    (targetWord : Option Str) : Bool :=
  is_substring_of_any typo validationWords || is_substring_of_any typo sourceWords ||
    (match targetWord with
     | none => false
     | some w => (typo.isPrefixOf w || typo.isSuffixOf w) && typo != w)

/-- The boundary order as the spec's table states it for claim C2, with its
cases read in the order they are listed (prefix row first). -/
def claimBoundaryOrder (typo : Str) (word : Option Str) : List BoundaryType :=
  match word with
  | none => [BoundaryType.NONE, BoundaryType.LEFT, BoundaryType.RIGHT, BoundaryType.BOTH]
  | some w =>
    if typo.isPrefixOf w && typo != w then
      [BoundaryType.NONE, BoundaryType.LEFT, BoundaryType.BOTH]
    else if typo.isSuffixOf w && typo != w then
      [BoundaryType.NONE, BoundaryType.RIGHT, BoundaryType.BOTH]
    else if pyIn typo w && typo != w && !(typo.isPrefixOf w) && !(typo.isSuffixOf w) then
      [BoundaryType.NONE, BoundaryType.BOTH]
    else [BoundaryType.NONE, BoundaryType.LEFT, BoundaryType.RIGHT, BoundaryType.BOTH]

/-- The amended boundary order for claim C2: like `claimBoundaryOrder` but the
suffix relationship takes precedence over the prefix relationship when the typo
is both, matching the source's case order. -/
def amendedBoundaryOrder (typo : Str) (word : Option Str) : List BoundaryType :=
  match word with
  | none => [BoundaryType.NONE, BoundaryType.LEFT, BoundaryType.RIGHT, BoundaryType.BOTH]
  | some w =>
    if typo.isSuffixOf w && typo != w then
      [BoundaryType.NONE, BoundaryType.RIGHT, BoundaryType.BOTH]
    else if typo.isPrefixOf w && typo != w then
      [BoundaryType.NONE, BoundaryType.LEFT, BoundaryType.BOTH]
    else if pyIn typo w && typo != w && !(typo.isPrefixOf w) && !(typo.isSuffixOf w) then
      [BoundaryType.NONE, BoundaryType.BOTH]
    else [BoundaryType.NONE, BoundaryType.LEFT, BoundaryType.RIGHT, BoundaryType.BOTH]

/-- Pattern structural types, from `entroppy/core/types.py` (`PatternType`,
used by `entroppy/core/patterns/validation/worker.py`). -/
inductive PatternType
  | PREFIX
  | SUFFIX
  | SUBSTRING
deriving DecidableEq, Repr, Inhabited

/-- The loop body of `_determine_pattern_type` from
`entroppy/core/patterns/validation/worker.py`: walk the occurrences tracking
`all_start`/`all_end`, returning `SUBSTRING` early when an occurrence matches
the pattern neither at the start nor at the end. -/
def _determine_pattern_type_loop (typoPattern : Str) :
    List Correction → Bool → Bool → PatternType
  | [], allStart, allEnd =>
    if allStart then PatternType.PREFIX
    else if allEnd then PatternType.SUFFIX
    else PatternType.SUBSTRING
  | (typo, _, _) :: rest, allStart, allEnd =>
    let startsWith := typoPattern.isPrefixOf typo
    let endsWith := typoPattern.isSuffixOf typo
    if !startsWith && !endsWith then PatternType.SUBSTRING
    else _determine_pattern_type_loop typoPattern rest (allStart && startsWith)
      (allEnd && endsWith)

/-- `_determine_pattern_type` from
`entroppy/core/patterns/validation/worker.py`. -/
def _determine_pattern_type (typoPattern : Str) (occurrences : List Correction) :
    Option PatternType :=
  if occurrences = [] then none
  else some (_determine_pattern_type_loop typoPattern occurrences true true)

/-- `_get_pattern_boundary_order` from
`entroppy/core/patterns/validation/worker.py`. -/
def _get_pattern_boundary_order (naturalBoundary : BoundaryType)
    (patternType : Option PatternType) : List BoundaryType :=
  if naturalBoundary ≠ BoundaryType.NONE then [naturalBoundary]
  else
    match patternType with
    | some PatternType.PREFIX => [BoundaryType.NONE, BoundaryType.LEFT]
    | some PatternType.SUFFIX => [BoundaryType.NONE, BoundaryType.RIGHT]
    | some PatternType.SUBSTRING => [BoundaryType.NONE]
    | none => [BoundaryType.NONE]

/-- `_validate_single_pattern_worker` from
`entroppy/core/patterns/validation/worker.py`, embedded parametrically in the
outcomes of its two safety checks: `checkValidationAndConflicts b` stands for
`_check_pattern_validation_and_conflicts` succeeding at boundary `b`, and
`checkOtherCorrections` for
`check_pattern_would_incorrectly_match_other_corrections` succeeding (that
check does not depend on the boundary in the source).  The returned value is
the accepted pattern, `none` on rejection (the rejection-report payload is
dropped). -/
def _validate_single_pattern_worker (typoPattern wordPattern : Str)
    (boundary : BoundaryType) (occurrences : List Correction) (minTypoLength : Nat)
    (checkValidationAndConflicts : BoundaryType → Bool)
    (checkOtherCorrections : Bool) : Option (Str × Str × BoundaryType) :=
  if occurrences.length < 2 then none
  else if typoPattern.length < minTypoLength then none
  else
    let patternType := _determine_pattern_type typoPattern occurrences
    let boundariesToTry := _get_pattern_boundary_order boundary patternType
    match boundariesToTry.find?
        (fun b => checkValidationAndConflicts b && checkOtherCorrections) with
    | some b => some (typoPattern, wordPattern, b)
    | none => none

/-- Platform match directions, from `entroppy/platforms/base.py`. -/
inductive MatchDirection
  | LEFT_TO_RIGHT
  | RIGHT_TO_LEFT
deriving DecidableEq, Repr, Inhabited

/-- `BOUNDARY_PRIORITY` from
`entroppy/resolution/platform_substring_conflict_detection.py`: lower value is
less restrictive. -/
def BOUNDARY_PRIORITY : BoundaryType → Nat
  | BoundaryType.NONE => 0
  | BoundaryType.LEFT => 1
  | BoundaryType.RIGHT => 1
  | BoundaryType.BOTH => 2

/-- `should_remove_shorter` from
`entroppy/resolution/platform_substring_conflict_detection.py`.  The live
resolution module (`entroppy/resolution/platform_conflicts/resolution.py`,
re-exported by that package's `__init__.py`) is absent from the tree; this
in-tree copy implements the same policy the spec (§4.5) and the integration
tests describe.  The `.get(boundary, 0)` default never fires because
`BoundaryType` is total. -/
def should_remove_shorter (matchDirection : MatchDirection)
    (shorterWord longerWord : Str)
    (shorterBoundary longerBoundary : BoundaryType) : Bool :=
  if shorterWord = longerWord then
    if BOUNDARY_PRIORITY shorterBoundary < BOUNDARY_PRIORITY longerBoundary then false
    else true
  else if matchDirection = MatchDirection.RIGHT_TO_LEFT then
    if BOUNDARY_PRIORITY shorterBoundary < BOUNDARY_PRIORITY longerBoundary then false
    else true
  else
    if BOUNDARY_PRIORITY shorterBoundary < BOUNDARY_PRIORITY longerBoundary then false
    else true

/-- `format_boundary_markers` from `entroppy/platforms/qmk/formatting.py`. -/
def format_boundary_markers (typo : Str) (boundary : BoundaryType) : Str :=
  match boundary with
  | BoundaryType.BOTH => ':' :: typo ++ [':']
  | BoundaryType.LEFT => ':' :: typo
  | BoundaryType.RIGHT => typo ++ [':']
  | BoundaryType.NONE => typo

/-- `is_substring` from
`entroppy/resolution/platform_substring_conflict_detection.py`: a strict
substring check with prefix/suffix fast paths. -/
def is_substring (shorter longer : Str) : Bool :=
  if shorter = [] || longer = [] || shorter = longer then false
  else if shorter.isPrefixOf longer then true
  else if shorter.isSuffixOf longer then true
  else pyIn shorter longer

/-- A graveyard entry, from `entroppy/resolution/state_types.py`
(`GraveyardEntry`; the `blocker` string and iteration number are dropped). -/
structure GraveyardEntry where
  typo : Str
  word : Str
  boundary : BoundaryType
  reason : RejectionReason
deriving DecidableEq, Repr

/-- The solver state fields the platform substring conflict pass touches
(`DictionaryState` in the absent `entroppy/resolution/state.py`): the active
corrections and the graveyard. -/
structure DictionaryState where
  active_corrections : List Correction
  graveyard : List GraveyardEntry
deriving Repr

/-- Modelled from the spec: the conflict-resolution phase of the platform
substring conflict pass (§4.5 steps 3 and 4).  The live pass body
(`entroppy/resolution/platform_conflicts/platform_pass.py`) and its resolution
helper (`.../resolution.py`) are absent from the tree; per the spec, every
ordered pair of active corrections whose formatted triggers stand in a strict
substring relation is resolved with `should_remove_shorter`, and the losing
formatted typo is collected. -/
def losing_formatted_typos (matchDirection : MatchDirection)
    (active : List Correction) : List Str :=
  (active.flatMap fun c1 => active.map fun c2 => (c1, c2)).filterMap fun pair =>
    let f1 := format_boundary_markers pair.1.1 pair.1.2.2
    let f2 := format_boundary_markers pair.2.1 pair.2.2.2
    if is_substring f1 f2 then
      if should_remove_shorter matchDirection pair.1.2.1 pair.2.2.1 pair.1.2.2 pair.2.2.2
      then some f1 else some f2
    else none

/-- Modelled from the spec: the removal phase of the platform substring
conflict pass (§4.5 step 4, absent `platform_pass.py`): every active
correction whose formatted trigger equals a losing formatted typo is removed —
not only the member of the examined pair — and each removed correction is
recorded in the graveyard with `PLATFORM_CONSTRAINT`. -/
def run_platform_substring_conflict_pass (matchDirection : MatchDirection)
    (state : DictionaryState) : DictionaryState :=
  let losers := losing_formatted_typos matchDirection state.active_corrections
  let removed := state.active_corrections.filter
    (fun c => decide (format_boundary_markers c.1 c.2.2 ∈ losers))
  { active_corrections := state.active_corrections.filter
      (fun c => decide (format_boundary_markers c.1 c.2.2 ∉ losers)),
    graveyard := state.graveyard ++ removed.map
      (fun c => ⟨c.1, c.2.1, c.2.2, RejectionReason.PLATFORM_CONSTRAINT⟩) }

/-- `_check_convergence` from `entroppy/resolution/solver/convergence.py`,
over the three state counts; the returned flag pairs the convergence verdict
with the dirty flag after the call (`state.clear_dirty_flag()` lives in the
absent `entroppy/resolution/state.py`; modelled from the spec §4.6 as clearing
the flag on convergence). -/
def _check_convergence (corrections patterns graveyard : Nat)
    (previousCorrections previousPatterns previousGraveyard : Nat)
    (dirty : Bool) : Bool × Bool :=
  let correctionsChange : Int := (corrections : Int) - (previousCorrections : Int)
  let patternsChange : Int := (patterns : Int) - (previousPatterns : Int)
  let graveyardChange : Int := (graveyard : Int) - (previousGraveyard : Int)
  let converged := correctionsChange == 0 && patternsChange == 0 && graveyardChange == 0
  (converged, if converged then false else dirty)

/-- Keyboard adjacency maps, modelled as association lists with unique keys
(Python `dict[str, str]`, a value being iterated character by character). -/
abbrev AdjacencyMap := List (Char × List Char)

/-- Dictionary lookup on an adjacency map (`extra_map[char]` after a
`char in extra_map` test). -/
def adjacencyLookup (extraMap : AdjacencyMap) (c : Char) : Option (List Char) :=
  (extraMap.find? fun kv => kv.1 == c).map (·.2)

/-- `generate_transpositions` from `src/autocorr_generator/typos.py`:
`word[:i] + word[i+1] + word[i] + word[i+2:]` for `i in range(len(word)-1)`. -/
def generate_transpositions (word : Str) : List Str :=
  (List.range (word.length - 1)).map fun i =>
    word.take i ++ [word.getD (i + 1) default, word.getD i default] ++ word.drop (i + 2)

/-- `generate_deletions` from `src/autocorr_generator/typos.py`: single
character deletions, only for words with at least 4 characters. -/
def generate_deletions (word : Str) : List Str :=
  if word.length < 4 then []
  else (List.range word.length).map fun i => word.take i ++ word.drop (i + 1)

/-- `generate_extra_letters` from `src/autocorr_generator/typos.py`: for each
position whose character is mapped, insert each adjacent letter after and
before that position. -/
def generate_extra_letters (word : Str) (extraMap : AdjacencyMap) : List Str :=
  if extraMap.isEmpty then []
  else
    word.enum.flatMap fun ic =>
      match adjacencyLookup extraMap ic.2 with
      | none => []
      | some extras =>
        extras.flatMap fun extra =>
          [word.take (ic.1 + 1) ++ [extra] ++ word.drop (ic.1 + 1),
           word.take ic.1 ++ [extra] ++ word.drop ic.1]

/-- `generate_replacements` from `src/autocorr_generator/typos.py`: replace
each mapped character by each of its adjacent letters. -/
def generate_replacements (word : Str) (extraMap : AdjacencyMap) : List Str :=
  if extraMap.isEmpty then []
  else
    word.enum.flatMap fun ic =>
      match adjacencyLookup extraMap ic.2 with
      | none => []
      | some replacements =>
        replacements.map fun r => word.take ic.1 ++ [r] ++ word.drop (ic.1 + 1)

/-- `generate_all_typos` from `src/autocorr_generator/typos.py`.  The Python
guard `if extra_letters_map:` is falsy for `None` and for the empty map. -/
def generate_all_typos (word : Str) (extraLettersMap : Option AdjacencyMap) : List Str :=
  let base := generate_transpositions word ++ generate_deletions word
  match extraLettersMap with
  | some m =>
    if m.isEmpty then base
    else base ++ generate_extra_letters word m ++ generate_replacements word m
  | none => base

/-- `process_word` from `src/autocorr_generator/processing.py`, restricted to
the per-typo filter chain (the exclusion-pattern partition is hoisted out of
the loop in the source as well).  Oracle parameters: `wildcardMatch p t`
stands for `compile_wildcard_regex(p).match(t)`;
`typoFreqThresholdPositive` for `typo_freq_threshold > 0.0` and
`typoFreqAtLeastThreshold t` for `word_frequency(t, "en") >= typo_freq_threshold`
(floating-point collaborators); `determineB` for
`determine_boundaries` (its module `autocorr_generator/boundaries.py` is absent
from the tree; the source keeps the correction when the result `is not None`). -/
def process_word (word : Str) (validationSet sourceWords : List Str)
    (adjLettersMap : Option AdjacencyMap) (exclusions : List Str)
    (wildcardMatch : Str → Str → Bool) (typoFreqThresholdPositive : Bool)
    (typoFreqAtLeastThreshold : Str → Bool)
    (determineB : Str → Option BoundaryType) : List Correction :=
  let exactExclusions := exclusions.filter fun p => !pyIn ['*'] p && !pyIn ['-', '>'] p
  let wildcardPatterns := exclusions.filter fun p => pyIn ['*'] p && !pyIn ['-', '>'] p
  (generate_all_typos word adjLettersMap).filterMap fun typo =>
    if typo = word then none
    else if typo ∈ sourceWords then none
    else if typo ∈ validationSet then none
    else
      let isExplicitlyExcluded :=
        decide (typo ∈ exactExclusions) || wildcardPatterns.any fun p => wildcardMatch p typo
      if !isExplicitlyExcluded && typoFreqThresholdPositive && typoFreqAtLeastThreshold typo
      then none
      else
        match determineB typo with
        | some boundaryType => some (typo, word, boundaryType)
        | none => none

/-- `_should_skip_short_typo` from `entroppy/resolution/boundaries/utils.py`:
`len(typo) < min_typo_length and len(word) > min_word_length`. -/
def _should_skip_short_typo (typo word : Str) (minTypoLength minWordLength : Nat) : Bool :=
  decide (typo.length < minTypoLength) && decide (word.length > minWordLength)

/-- `_check_length_constraints` from
`entroppy/resolution/passes/candidate_selection/filters.py` — a different
length gate (word measured against `min_typo_length`); embedded for reference,
it is not the `TOO_SHORT` gate. -/
def _check_length_constraints (typo word : Str) (minTypoLength : Nat) : Bool :=
  if word.length ≤ minTypoLength then decide (typo.length ≥ minTypoLength)
  else true

/-- Model of Python's Unicode `str.isalpha` on the code points up to U+00FF
(ASCII letters plus the Latin-1 letters ª, µ, º, À–Ö, Ø–ö, ø–ÿ); code points
above U+00FF are outside the modelled fragment and map to `false`. -/
def pyIsAlpha (c : Char) : Bool :=
  c.isAlpha || c.toNat == 0xAA || c.toNat == 0xB5 || c.toNat == 0xBA ||
    (0xC0 ≤ c.toNat && c.toNat ≤ 0xD6) || (0xD8 ≤ c.toNat && c.toNat ≤ 0xF6) ||
    (0xF8 ≤ c.toNat && c.toNat ≤ 0xFF)

/-- Model of Python's `str.lower` per character on the code points up to
U+00FF (A–Z and À–Þ except × map down by 0x20; everything else unchanged). -/
def pyLowerChar (c : Char) : Char :=
  if 'A' ≤ c ∧ c ≤ 'Z' then Char.ofNat (c.toNat + 0x20)
  else if 0xC0 ≤ c.toNat ∧ c.toNat ≤ 0xDE ∧ c.toNat ≠ 0xD7 then Char.ofNat (c.toNat + 0x20)
  else c

/-- Model of Python's `str.lower` on a string. -/
def pyLower (s : Str) : Str := s.map pyLowerChar

/-- `filter_character_set` from `entroppy/platforms/qmk/filtering.py`: keep a
correction only when every character of the lowercased typo and word satisfies
`c.isalpha() or c == "'"`, lowercasing the kept entries; rejected entries are
returned as `(typo, word)` pairs (the reason strings are dropped). -/
def filter_character_set : List Correction → List Correction × List (Str × Str)
  | [] => ([], [])
  | (typo, word, boundary) :: rest =>
    let acc := filter_character_set rest
    if !((pyLower typo).all fun c => pyIsAlpha c || c == Char.ofNat 39) then
      (acc.1, (typo, word) :: acc.2)
    else if !((pyLower word).all fun c => pyIsAlpha c || c == Char.ofNat 39) then
      (acc.1, (typo, word) :: acc.2)
    else ((pyLower typo, pyLower word, boundary) :: acc.1, acc.2)

/-- The character set the spec allows for QMK: a single lowercase Latin
alphabet plus the apostrophe, `[a-z']`. -/
def qmkAllowedChar (c : Char) : Bool :=
  ('a' ≤ c && c ≤ 'z') || c == Char.ofNat 39

/-- `parse_boundary_markers` from `entroppy/core/boundaries/parsing.py`
(`Constants.BOUNDARY_MARKER` is the colon). -/
def parse_boundary_markers (pattern : Str) : Str × Option BoundaryType :=
  if pattern = [] then (pattern, none)
  else
    let startsWithColon := ([':'] : Str).isPrefixOf pattern
    let endsWithColon := ([':'] : Str).isSuffixOf pattern
    if startsWithColon && endsWithColon then
      ((pattern.drop 1).dropLast, some BoundaryType.BOTH)
    else if startsWithColon then (pattern.drop 1, some BoundaryType.LEFT)
    else if endsWithColon then (pattern.dropLast, some BoundaryType.RIGHT)
    else (pattern, none)

theorem pyIn_eq_true_iff (sub s : Str) :
    pyIn sub s = true ↔ ∃ p q, p ++ sub ++ q = s := by
  induction s with
  | nil =>
    simp only [pyIn, List.isEmpty_iff]
    constructor
    · rintro rfl; exact ⟨[], [], rfl⟩
    · rintro ⟨p, q, h⟩
      have h1 := List.append_eq_nil.mp h
      exact (List.append_eq_nil.mp h1.1).2
  | cons c rest ih =>
    simp only [pyIn, Bool.or_eq_true, ih, List.isPrefixOf_iff_prefix]
    constructor
    · rintro (⟨t, ht⟩ | ⟨p, q, hpq⟩)
      · exact ⟨[], t, by simpa using ht⟩
      · exact ⟨c :: p, q, by simp [hpq]⟩
    · rintro ⟨p, q, hpq⟩
      cases p with
      | nil => exact Or.inl ⟨q, by simpa using hpq⟩
      | cons x xs =>
        right
        refine ⟨xs, q, ?_⟩
        simpa using congrArg List.tail hpq

theorem pyIn_infix_iff (sub s : Str) : pyIn sub s = true ↔ sub <:+: s := by
  rw [pyIn_eq_true_iff]
  exact Iff.rfl


theorem isPrefixOf_eq_false_iff (l1 l2 : Str) :
    l1.isPrefixOf l2 = false ↔ ¬ l1 <+: l2 := by
  rw [Bool.eq_false_iff, ne_eq, List.isPrefixOf_iff_prefix]

theorem isSuffixOf_eq_false_iff (l1 l2 : Str) :
    l1.isSuffixOf l2 = false ↔ ¬ l1 <:+ l2 := by
  rw [Bool.eq_false_iff, ne_eq, List.isSuffixOf_iff_suffix]

theorem wcft_NONE_iff (typo : Str) (val src : List Str) (tgt : Option Str) :
    _would_cause_false_trigger typo BoundaryType.NONE val src tgt = true ↔
      ((∃ w ∈ val, typo <:+: w ∧ typo ≠ w) ∨ (∃ w ∈ src, typo <:+: w ∧ typo ≠ w))
      ∨ (∃ w, tgt = some w ∧ typo <:+: w ∧ typo ≠ w ∧ ¬ typo <+: w ∧ ¬ typo <:+ w) := by
  cases tgt with
  | none =>
    simp [_would_cause_false_trigger, _check_typo_in_target_word, would_trigger_at_start,
      would_trigger_at_end, is_substring_of_any, pyIn_infix_iff]
  | some w0 =>
    simp [_would_cause_false_trigger, _check_typo_in_target_word, would_trigger_at_start,
      would_trigger_at_end, is_substring_of_any, pyIn_infix_iff,
      isPrefixOf_eq_false_iff, isSuffixOf_eq_false_iff]
    aesop

theorem wcft_LEFT_iff (typo : Str) (val src : List Str) (tgt : Option Str) :
    _would_cause_false_trigger typo BoundaryType.LEFT val src tgt = true ↔
      (typo ≠ [] ∧
        ((∃ w ∈ val, typo <+: w ∧ w ≠ typo) ∨ (∃ w ∈ src, typo <+: w ∧ w ≠ typo)))
      ∨ (∃ w, tgt = some w ∧ typo <+: w ∧ typo ≠ w) := by
  cases tgt with
  | none =>
    simp [_would_cause_false_trigger, _check_typo_in_target_word, would_trigger_at_start,
      would_trigger_at_end, is_substring_of_any, pyIn_infix_iff]
    aesop
  | some w0 =>
    simp [_would_cause_false_trigger, _check_typo_in_target_word, would_trigger_at_start,
      would_trigger_at_end, is_substring_of_any, pyIn_infix_iff]
    aesop

theorem wcft_RIGHT_iff (typo : Str) (val src : List Str) (tgt : Option Str) :
    _would_cause_false_trigger typo BoundaryType.RIGHT val src tgt = true ↔
      (typo ≠ [] ∧
        ((∃ w ∈ val, typo <:+ w ∧ w ≠ typo) ∨ (∃ w ∈ src, typo <:+ w ∧ w ≠ typo)))
      ∨ (∃ w, tgt = some w ∧ typo <:+ w ∧ typo ≠ w) := by
  cases tgt with
  | none =>
    simp [_would_cause_false_trigger, _check_typo_in_target_word, would_trigger_at_start,
      would_trigger_at_end, is_substring_of_any, pyIn_infix_iff]
    aesop
  | some w0 =>
    simp [_would_cause_false_trigger, _check_typo_in_target_word, would_trigger_at_start,
      would_trigger_at_end, is_substring_of_any, pyIn_infix_iff]
    aesop

theorem wcft_BOTH_false (typo : Str) (val src : List Str) (tgt : Option Str) :
    _would_cause_false_trigger typo BoundaryType.BOTH val src tgt = false := by
  simp [_would_cause_false_trigger]

/-- C1 (amended): characterization of `_would_cause_false_trigger`. -/
theorem c1_false_trigger_characterization (typo : Str)
    (validationWords sourceWords : List Str) (targetWord : Option Str) :
    (_would_cause_false_trigger typo BoundaryType.NONE validationWords sourceWords
        targetWord = true ↔
      ((∃ w ∈ validationWords, typo <:+: w ∧ typo ≠ w)
        ∨ (∃ w ∈ sourceWords, typo <:+: w ∧ typo ≠ w))
      ∨ (∃ w, targetWord = some w ∧ typo <:+: w ∧ typo ≠ w ∧ ¬ typo <+: w ∧ ¬ typo <:+ w))
    ∧ (_would_cause_false_trigger typo BoundaryType.LEFT validationWords sourceWords
        targetWord = true ↔
      (typo ≠ [] ∧
        ((∃ w ∈ validationWords, typo <+: w ∧ w ≠ typo)
          ∨ (∃ w ∈ sourceWords, typo <+: w ∧ w ≠ typo)))
      ∨ (∃ w, targetWord = some w ∧ typo <+: w ∧ typo ≠ w))
    ∧ (_would_cause_false_trigger typo BoundaryType.RIGHT validationWords sourceWords
        targetWord = true ↔
      (typo ≠ [] ∧
        ((∃ w ∈ validationWords, typo <:+ w ∧ w ≠ typo)
          ∨ (∃ w ∈ sourceWords, typo <:+ w ∧ w ≠ typo)))
      ∨ (∃ w, targetWord = some w ∧ typo <:+ w ∧ typo ≠ w)) :=
  ⟨wcft_NONE_iff typo validationWords sourceWords targetWord,
   wcft_LEFT_iff typo validationWords sourceWords targetWord,
   wcft_RIGHT_iff typo validationWords sourceWords targetWord⟩

/-- C1 counterexample: the typo "hel" is a strict prefix of the target word
"hello", so by the claim the NONE boundary should count as a false trigger
even with empty validation and source sets; the source reports none (only the
middle-substring relationship to the target feeds the NONE check). -/
theorem c1_none_counterexample :
    claimNoneFalseTrigger "hel".toList [] [] (some "hello".toList) = true
    ∧ _would_cause_false_trigger "hel".toList BoundaryType.NONE [] []
        (some "hello".toList) = false := by decide

theorem isPrefixOf_nil_right (l : Str) : l.isPrefixOf [] = l.isEmpty := by
  cases l <;> rfl

theorem isSuffixOf_nil_right (l : Str) : l.isSuffixOf [] = l.isEmpty := by
  cases l with
  | nil => rfl
  | cons c rest =>
    show ((c :: rest).reverse).isPrefixOf [] = false
    rw [isPrefixOf_nil_right]
    simp

theorem amendedBoundaryOrder_eq (typo : Str) (word : Option Str) :
    amendedBoundaryOrder typo word = (_determine_boundary_order typo word).1 := by
  cases word with
  | none => rfl
  | some w =>
    by_cases hw : w = []
    · subst hw
      simp only [amendedBoundaryOrder, _determine_boundary_order,
        _check_typo_in_target_word, isSuffixOf_nil_right, isPrefixOf_nil_right, pyIn]
      by_cases ht : typo = []
      · subst ht; simp
      · have hne : typo.isEmpty = false := by
          simpa [List.isEmpty_iff] using ht
        simp [hne]
    · simp only [amendedBoundaryOrder, _determine_boundary_order,
        _check_typo_in_target_word, if_neg hw]
      rcases Bool.eq_false_or_eq_true (typo.isSuffixOf w) with hs | hs <;>
        rcases Bool.eq_false_or_eq_true (typo.isPrefixOf w) with hp | hp <;>
        rcases Bool.eq_false_or_eq_true (typo == w) with he | he <;>
        rcases Bool.eq_false_or_eq_true (pyIn typo w) with hi | hi <;>
        simp [hs, hp, he, hi]

theorem BOTH_mem_order (typo : Str) (word : Option Str) :
    BoundaryType.BOTH ∈ (_determine_boundary_order typo word).1 := by
  simp only [_determine_boundary_order]
  split_ifs <;> simp

theorem find?_eq_getD_split {α : Type} (l : List α) (p : α → Bool) (d : α)
    (h : ∃ x ∈ l, p x = true) :
    ∃ pre post, l = pre ++ ((l.find? p).getD d) :: post ∧ ∀ y ∈ pre, p y = false := by
  induction l with
  | nil => simp at h
  | cons a rest ih =>
    by_cases ha : p a = true
    · refine ⟨[], rest, ?_, by simp⟩
      simp [List.find?_cons_of_pos _ ha]
    · have ha' : p a = false := by simpa using ha
      obtain ⟨x, hx, hpx⟩ := h
      rcases List.mem_cons.mp hx with rfl | hx'
      · rw [hpx] at ha'; cases ha'
      · obtain ⟨pre, post, heq, hpre⟩ := ih ⟨x, hx', hpx⟩
        refine ⟨a :: pre, post, ?_, ?_⟩
        · rw [List.find?_cons_of_neg _ ha]
          simpa using congrArg (a :: ·) heq
        · intro y hy
          rcases List.mem_cons.mp hy with rfl | hy'
          · exact ha'
          · exact hpre y hy'

theorem choose_eq_getD (typo : Str) (validationWords sourceWords : List Str)
    (word : Option Str) :
    choose_boundary_for_typo typo validationWords sourceWords word =
      (((_determine_boundary_order typo word).1.find?
          (fun b => !_would_cause_false_trigger typo b validationWords sourceWords word)).getD
        BoundaryType.BOTH) := by
  cases hfind : ((_determine_boundary_order typo word).1.find?
      (fun b => !_would_cause_false_trigger typo b validationWords sourceWords word)) with
  | none => simp [choose_boundary_for_typo, hfind]
  | some b => simp [choose_boundary_for_typo, hfind]

/-- C2 (amended): boundary selection tries the boundaries in the order given
by the typo's relationship to the target word — non-identical suffix of the
word: NONE, RIGHT, BOTH (the suffix case takes precedence when the typo is
both a prefix and a suffix); non-identical prefix: NONE, LEFT, BOTH;
true-middle substring: NONE, BOTH; otherwise NONE, LEFT, RIGHT, BOTH — and
returns the first boundary in that order that would not cause a false
trigger (BOTH is the fallback when the loop exhausts). -/
theorem c2_first_accepted_in_order (typo : Str) (validationWords sourceWords : List Str)
    (word : Option Str) :
    ∃ tried later,
      amendedBoundaryOrder typo word =
        tried ++ choose_boundary_for_typo typo validationWords sourceWords word :: later
      ∧ (∀ b ∈ tried,
          _would_cause_false_trigger typo b validationWords sourceWords word = true)
      ∧ _would_cause_false_trigger typo
          (choose_boundary_for_typo typo validationWords sourceWords word)
          validationWords sourceWords word = false := by
  have hmem : ∃ b ∈ (_determine_boundary_order typo word).1,
      (!_would_cause_false_trigger typo b validationWords sourceWords word) = true :=
    ⟨BoundaryType.BOTH, BOTH_mem_order typo word, by simp [wcft_BOTH_false]⟩
  obtain ⟨pre, post, heq, hpre⟩ :=
    find?_eq_getD_split (_determine_boundary_order typo word).1
      (fun b => !_would_cause_false_trigger typo b validationWords sourceWords word)
      BoundaryType.BOTH hmem
  refine ⟨pre, post, ?_, ?_, ?_⟩
  · rw [amendedBoundaryOrder_eq, choose_eq_getD]
    exact heq
  · intro b hb
    have := hpre b hb
    simpa using this
  · cases hfind : ((_determine_boundary_order typo word).1.find?
        (fun b => !_would_cause_false_trigger typo b validationWords sourceWords word)) with
    | none =>
      exfalso
      obtain ⟨b, hb, hpb⟩ := hmem
      have := List.find?_eq_none.mp hfind b hb
      exact this hpb
    | some b =>
      have hpb := List.find?_some hfind
      rw [choose_eq_getD, hfind]
      simpa using hpb

/-- C2 counterexample: the typo "a" is both a prefix and a suffix of the word
"aba"; the claim's table (prefix row first) yields NONE, LEFT, BOTH, but the
source tries NONE, RIGHT, BOTH. -/
theorem c2_order_counterexample :
    claimBoundaryOrder "a".toList (some "aba".toList)
      = [BoundaryType.NONE, BoundaryType.LEFT, BoundaryType.BOTH]
    ∧ (_determine_boundary_order "a".toList (some "aba".toList)).1
      = [BoundaryType.NONE, BoundaryType.RIGHT, BoundaryType.BOTH] := by decide

/-- C2 witness. -/
theorem c2_first_accepted_in_order_witness :
    ∃ tried later,
      amendedBoundaryOrder "tain".toList (some "train".toList) =
        tried ++ choose_boundary_for_typo "tain".toList
          ["maintain".toList, "containing".toList] [] (some "train".toList) :: later
      ∧ (∀ b ∈ tried,
          _would_cause_false_trigger "tain".toList b
            ["maintain".toList, "containing".toList] [] (some "train".toList) = true)
      ∧ _would_cause_false_trigger "tain".toList
          (choose_boundary_for_typo "tain".toList
            ["maintain".toList, "containing".toList] [] (some "train".toList))
          ["maintain".toList, "containing".toList] [] (some "train".toList) = false :=
  c2_first_accepted_in_order "tain".toList
    ["maintain".toList, "containing".toList] [] (some "train".toList)

theorem determine_pattern_type_loop_eq (tp : Str) (occ : List Correction)
    (allStart allEnd : Bool) :
    _determine_pattern_type_loop tp occ allStart allEnd =
      (if allStart && occ.all (fun c => tp.isPrefixOf c.1) then PatternType.PREFIX
       else if allEnd && occ.all (fun c => tp.isSuffixOf c.1) then PatternType.SUFFIX
       else PatternType.SUBSTRING) := by
  induction occ generalizing allStart allEnd with
  | nil => simp [_determine_pattern_type_loop]
  | cons c rest ih =>
    obtain ⟨t, w, b⟩ := c
    show (if !tp.isPrefixOf t && !tp.isSuffixOf t then PatternType.SUBSTRING
      else _determine_pattern_type_loop tp rest (allStart && tp.isPrefixOf t)
        (allEnd && tp.isSuffixOf t)) = _
    cases hs : tp.isPrefixOf t <;> cases he : tp.isSuffixOf t <;>
      simp only [hs, he, ih, List.all_cons, Bool.not_false, Bool.not_true, Bool.and_true,
        Bool.true_and, Bool.and_false, Bool.false_and, Bool.and_self, Bool.and_assoc,
        if_true, if_false, reduceIte]
    all_goals simp

theorem worker_accepted_mem_order (typoPattern wordPattern : Str) (boundary : BoundaryType)
    (occurrences : List Correction) (minTypoLength : Nat)
    (checkValidationAndConflicts : BoundaryType → Bool) (checkOtherCorrections : Bool)
    (tp' wp' : Str) (b' : BoundaryType)
    (hacc : _validate_single_pattern_worker typoPattern wordPattern boundary
      occurrences minTypoLength checkValidationAndConflicts checkOtherCorrections
      = some (tp', wp', b')) :
    b' ∈ _get_pattern_boundary_order boundary
        (_determine_pattern_type typoPattern occurrences)
    ∧ 2 ≤ occurrences.length := by
  simp only [_validate_single_pattern_worker] at hacc
  split_ifs at hacc with h1 h2
  cases hfind : (_get_pattern_boundary_order boundary
      (_determine_pattern_type typoPattern occurrences)).find?
      (fun b => checkValidationAndConflicts b && checkOtherCorrections) with
  | none =>
    rw [hfind] at hacc
    simp at hacc
  | some b =>
    rw [hfind] at hacc
    simp only [Option.some.injEq, Prod.mk.injEq] at hacc
    obtain ⟨-, -, rfl⟩ := hacc
    exact ⟨List.mem_of_find?_eq_some hfind, by omega⟩

theorem pattern_type_of_all_start (tp : Str) (occ : List Correction) (hocc : occ ≠ [])
    (h : ∀ c ∈ occ, tp.isPrefixOf c.1 = true) :
    _determine_pattern_type tp occ = some PatternType.PREFIX := by
  have hall : occ.all (fun c => tp.isPrefixOf c.1) = true := List.all_eq_true.mpr h
  simp [_determine_pattern_type, hocc, determine_pattern_type_loop_eq, hall]

theorem pattern_type_of_all_end (tp : Str) (occ : List Correction) (hocc : occ ≠ [])
    (hns : ¬ ∀ c ∈ occ, tp.isPrefixOf c.1 = true)
    (h : ∀ c ∈ occ, tp.isSuffixOf c.1 = true) :
    _determine_pattern_type tp occ = some PatternType.SUFFIX := by
  have hall : occ.all (fun c => tp.isSuffixOf c.1) = true := List.all_eq_true.mpr h
  have hnall : occ.all (fun c => tp.isPrefixOf c.1) = false := by
    rw [Bool.eq_false_iff, ne_eq, List.all_eq_true]
    exact hns
  simp [_determine_pattern_type, hocc, determine_pattern_type_loop_eq, hall, hnall]

theorem pattern_type_of_neither (tp : Str) (occ : List Correction) (hocc : occ ≠ [])
    (hns : ¬ ∀ c ∈ occ, tp.isPrefixOf c.1 = true)
    (hne : ¬ ∀ c ∈ occ, tp.isSuffixOf c.1 = true) :
    _determine_pattern_type tp occ = some PatternType.SUBSTRING := by
  have hnall : occ.all (fun c => tp.isPrefixOf c.1) = false := by
    rw [Bool.eq_false_iff, ne_eq, List.all_eq_true]
    exact hns
  have hnall' : occ.all (fun c => tp.isSuffixOf c.1) = false := by
    rw [Bool.eq_false_iff, ne_eq, List.all_eq_true]
    exact hne
  simp [_determine_pattern_type, hocc, determine_pattern_type_loop_eq, hnall, hnall']

/-- C3: every pattern the validation worker accepts (the extraction emits
pattern keys with natural boundary NONE) has a boundary in {NONE, LEFT} when
its typo pattern is a prefix of all occurrence typos, in {NONE, RIGHT} when it
is a suffix of all occurrence typos (and not a prefix of all), exactly NONE
when it is neither, and never BOTH. -/
theorem c3_pattern_boundary_policy (typoPattern wordPattern : Str)
    (occurrences : List Correction) (minTypoLength : Nat)
    (checkValidationAndConflicts : BoundaryType → Bool) (checkOtherCorrections : Bool)
    (tp' wp' : Str) (b' : BoundaryType)
    (hacc : _validate_single_pattern_worker typoPattern wordPattern BoundaryType.NONE
      occurrences minTypoLength checkValidationAndConflicts checkOtherCorrections
      = some (tp', wp', b')) :
    b' ≠ BoundaryType.BOTH
    ∧ ((∀ c ∈ occurrences, typoPattern.isPrefixOf c.1 = true)
        → b' = BoundaryType.NONE ∨ b' = BoundaryType.LEFT)
    ∧ ((¬ ∀ c ∈ occurrences, typoPattern.isPrefixOf c.1 = true)
        → (∀ c ∈ occurrences, typoPattern.isSuffixOf c.1 = true)
        → b' = BoundaryType.NONE ∨ b' = BoundaryType.RIGHT)
    ∧ ((¬ ∀ c ∈ occurrences, typoPattern.isPrefixOf c.1 = true)
        → (¬ ∀ c ∈ occurrences, typoPattern.isSuffixOf c.1 = true)
        → b' = BoundaryType.NONE) := by
  obtain ⟨hmem, hlen⟩ := worker_accepted_mem_order typoPattern wordPattern BoundaryType.NONE
    occurrences minTypoLength checkValidationAndConflicts checkOtherCorrections
    tp' wp' b' hacc
  have hocc : occurrences ≠ [] := by
    intro h
    subst h
    simp at hlen
  refine ⟨?_, ?_, ?_, ?_⟩
  · rcases hpt : _determine_pattern_type typoPattern occurrences with _ | pt
    · rw [hpt] at hmem
      simp [_get_pattern_boundary_order] at hmem
      subst hmem
      simp
    · cases pt <;> rw [hpt] at hmem <;>
        simp [_get_pattern_boundary_order] at hmem <;>
        rcases hmem with rfl | rfl <;> simp
  · intro hall
    rw [pattern_type_of_all_start typoPattern occurrences hocc hall] at hmem
    simpa [_get_pattern_boundary_order] using hmem
  · intro hns hall
    rw [pattern_type_of_all_end typoPattern occurrences hocc hns hall] at hmem
    simpa [_get_pattern_boundary_order] using hmem
  · intro hns hne
    rw [pattern_type_of_neither typoPattern occurrences hocc hns hne] at hmem
    simpa [_get_pattern_boundary_order] using hmem

/-- C3 witness. -/
theorem c3_pattern_boundary_policy_witness :
    _validate_single_pattern_worker ['t', 'o'] ['t', 'o'] BoundaryType.NONE
        [(['t', 'o', 'a'], [], BoundaryType.NONE), (['t', 'o', 'b'], [], BoundaryType.NONE)]
        2 (fun b => decide (b = BoundaryType.LEFT)) true
      = some (['t', 'o'], ['t', 'o'], BoundaryType.LEFT)
    ∧ (BoundaryType.LEFT = BoundaryType.NONE ∨ BoundaryType.LEFT = BoundaryType.LEFT) :=
  ⟨by decide,
   (c3_pattern_boundary_policy ['t', 'o'] ['t', 'o']
      [(['t', 'o', 'a'], [], BoundaryType.NONE), (['t', 'o', 'b'], [], BoundaryType.NONE)]
      2 (fun b => decide (b = BoundaryType.LEFT)) true
      ['t', 'o'] ['t', 'o'] BoundaryType.LEFT (by decide)).2.1 (by decide)⟩

/-- C4: when the platform substring conflict pass resolves a pair whose
boundaries differ in restrictiveness (priority NONE < LEFT = RIGHT < BOTH),
the shorter formatted trigger is removed exactly when the longer one has the
strictly less restrictive boundary — so the correction retained is the one
with the less restrictive boundary, by the same rule whether or not the two
corrections map to the same core word. -/
theorem c4_retain_less_restrictive (matchDirection : MatchDirection)
    (shorterWord longerWord : Str) (shorterBoundary longerBoundary : BoundaryType)
    (h : BOUNDARY_PRIORITY shorterBoundary ≠ BOUNDARY_PRIORITY longerBoundary) :
    (should_remove_shorter matchDirection shorterWord longerWord shorterBoundary
        longerBoundary = true
      ↔ BOUNDARY_PRIORITY longerBoundary < BOUNDARY_PRIORITY shorterBoundary) := by
  unfold should_remove_shorter
  split_ifs with h1 h2 h3 h4 h5 <;> simp <;> omega

/-- C4 witness. -/
theorem c4_retain_less_restrictive_witness :
    BOUNDARY_PRIORITY BoundaryType.BOTH ≠ BOUNDARY_PRIORITY BoundaryType.LEFT
    ∧ (should_remove_shorter MatchDirection.RIGHT_TO_LEFT
          "about".toList "about".toList BoundaryType.BOTH BoundaryType.LEFT = true
        ↔ BOUNDARY_PRIORITY BoundaryType.LEFT < BOUNDARY_PRIORITY BoundaryType.BOTH) :=
  ⟨by decide,
   c4_retain_less_restrictive MatchDirection.RIGHT_TO_LEFT "about".toList "about".toList
     BoundaryType.BOTH BoundaryType.LEFT (by decide)⟩

/-- C6: after an iteration, the solver declares convergence exactly when the
sizes of the active corrections, the active patterns and the graveyard are
unchanged from the previous iteration, and on convergence the dirty flag is
cleared. -/
theorem c6_convergence_criterion (corrections patterns graveyard : Nat)
    (previousCorrections previousPatterns previousGraveyard : Nat) (dirty : Bool) :
    ((_check_convergence corrections patterns graveyard previousCorrections
        previousPatterns previousGraveyard dirty).1 = true
      ↔ (corrections = previousCorrections ∧ patterns = previousPatterns
          ∧ graveyard = previousGraveyard))
    ∧ (_check_convergence corrections patterns graveyard previousCorrections
        previousPatterns previousGraveyard dirty).2
      = (!(_check_convergence corrections patterns graveyard previousCorrections
          previousPatterns previousGraveyard dirty).1 && dirty) := by
  constructor
  · simp only [_check_convergence, Bool.and_eq_true, beq_iff_eq]
    omega
  · have h2 : (_check_convergence corrections patterns graveyard previousCorrections
        previousPatterns previousGraveyard dirty).2
        = if (_check_convergence corrections patterns graveyard previousCorrections
            previousPatterns previousGraveyard dirty).1 = true then false else dirty := rfl
    rw [h2]
    cases hx : (_check_convergence corrections patterns graveyard previousCorrections
        previousPatterns previousGraveyard dirty).1 <;> simp [hx]

/-- C8: a candidate correction is skipped as too short exactly when the typo
is shorter than `min_typo_length` and the word longer than `min_word_length`;
in particular a short typo mapping to a word of length at most
`min_word_length` is still admitted. -/
theorem c8_length_gate (typo word : Str) (minTypoLength minWordLength : Nat) :
    _should_skip_short_typo typo word minTypoLength minWordLength = true
      ↔ (typo.length < minTypoLength ∧ word.length > minWordLength) := by
  simp [_should_skip_short_typo]

/-- C5: when the platform substring conflict pass resolves a conflicting
pair, every active correction whose formatted trigger equals the losing
formatted typo — not only the member of the examined pair — is removed from
the active set and recorded in the graveyard with `PLATFORM_CONSTRAINT`. -/
theorem c5_remove_all_losing_formatted (matchDirection : MatchDirection)
    (state : DictionaryState) (losingFormatted : Str) (c : Correction)
    (hlf : losingFormatted ∈ losing_formatted_typos matchDirection state.active_corrections)
    (hc : c ∈ state.active_corrections)
    (hfmt : format_boundary_markers c.1 c.2.2 = losingFormatted) :
    c ∉ (run_platform_substring_conflict_pass matchDirection state).active_corrections
    ∧ (⟨c.1, c.2.1, c.2.2, RejectionReason.PLATFORM_CONSTRAINT⟩ : GraveyardEntry)
        ∈ (run_platform_substring_conflict_pass matchDirection state).graveyard := by
  constructor
  · intro hmem
    simp only [run_platform_substring_conflict_pass, List.mem_filter] at hmem
    rw [hfmt] at hmem
    have := hmem.2
    simp at this
    exact this hlf
  · simp only [run_platform_substring_conflict_pass, List.mem_append, List.mem_map]
    right
    refine ⟨c, ?_, rfl⟩
    simp only [List.mem_filter]
    exact ⟨hc, by simp [hfmt, hlf]⟩

/-- C5 witness (the spec's scenario 5). -/
theorem c5_remove_all_losing_formatted_witness :
    (("abotu".toList, "about".toList, BoundaryType.BOTH) : Correction)
        ∉ (run_platform_substring_conflict_pass MatchDirection.RIGHT_TO_LEFT
            ⟨[("abot".toList, "about".toList, BoundaryType.LEFT),
              ("abotu".toList, "about".toList, BoundaryType.BOTH)], []⟩).active_corrections
    ∧ (⟨"abotu".toList, "about".toList, BoundaryType.BOTH,
          RejectionReason.PLATFORM_CONSTRAINT⟩ : GraveyardEntry)
        ∈ (run_platform_substring_conflict_pass MatchDirection.RIGHT_TO_LEFT
            ⟨[("abot".toList, "about".toList, BoundaryType.LEFT),
              ("abotu".toList, "about".toList, BoundaryType.BOTH)], []⟩).graveyard :=
  c5_remove_all_losing_formatted MatchDirection.RIGHT_TO_LEFT
    ⟨[("abot".toList, "about".toList, BoundaryType.LEFT),
      ("abotu".toList, "about".toList, BoundaryType.BOTH)], []⟩
    ":abotu:".toList ("abotu".toList, "about".toList, BoundaryType.BOTH)
    (by decide) (by decide) (by decide)

/-- C9 (code-bug evaluation): the QMK character filter retains the correction
("café", "cafe", NONE) because Python's Unicode `str.isalpha` accepts the
letter é, although é lies outside the `[a-z']` character set the spec and the
module's own documentation require, under which the correction would have to
be filtered out. -/
theorem c9_unicode_letter_retained :
    (filter_character_set [("café".toList, "cafe".toList, BoundaryType.NONE)]).1
      = [("café".toList, "cafe".toList, BoundaryType.NONE)]
    ∧ ((pyLower "café".toList).all qmkAllowedChar) = false := by decide

theorem mem_enum_iff (l : Str) (i : Nat) (ch : Char) :
    (i, ch) ∈ l.enum ↔ i < l.length ∧ l.getD i default = ch := by
  rw [List.mk_mem_enum_iff_getElem?]
  constructor
  · intro h
    have hi : i < l.length := by
      by_contra hge
      rw [List.getElem?_eq_none (by omega)] at h
      cases h
    refine ⟨hi, ?_⟩
    rw [List.getD_eq_getElem?_getD, h]
    rfl
  · rintro ⟨hi, rfl⟩
    rw [List.getD_eq_getElem?_getD, List.getElem?_eq_getElem hi]
    rfl

theorem mem_generate_transpositions_iff (word t : Str) :
    t ∈ generate_transpositions word ↔
      ∃ i, i + 1 < word.length
        ∧ t = word.take i ++ [word.getD (i + 1) default, word.getD i default]
            ++ word.drop (i + 2) := by
  simp only [generate_transpositions, List.mem_map, List.mem_range]
  constructor
  · rintro ⟨i, hi, rfl⟩
    exact ⟨i, by omega, rfl⟩
  · rintro ⟨i, hi, rfl⟩
    exact ⟨i, by omega, rfl⟩

theorem mem_generate_deletions_iff (word t : Str) :
    t ∈ generate_deletions word ↔
      4 ≤ word.length ∧ ∃ i < word.length, t = word.take i ++ word.drop (i + 1) := by
  by_cases h4 : word.length < 4
  · simp only [generate_deletions, if_pos h4, List.not_mem_nil, false_iff]
    rintro ⟨hge, -⟩
    omega
  · simp only [generate_deletions, if_neg h4, List.mem_map, List.mem_range]
    constructor
    · rintro ⟨i, hi, rfl⟩
      exact ⟨by omega, i, hi, rfl⟩
    · rintro ⟨-, i, hi, rfl⟩
      exact ⟨i, hi, rfl⟩

theorem mem_generate_extra_letters_iff (word : Str) (extraMap : AdjacencyMap) (t : Str) :
    t ∈ generate_extra_letters word extraMap ↔
      ∃ i < word.length, ∃ cs,
        adjacencyLookup extraMap (word.getD i default) = some cs
        ∧ ∃ c ∈ cs, (t = word.take (i + 1) ++ [c] ++ word.drop (i + 1)
            ∨ t = word.take i ++ [c] ++ word.drop i) := by
  by_cases hm : extraMap.isEmpty
  · have hm' : extraMap = [] := List.isEmpty_iff.mp hm
    subst hm'
    simp [generate_extra_letters, adjacencyLookup]
  · simp only [generate_extra_letters, if_neg hm, List.mem_flatMap]
    constructor
    · rintro ⟨⟨i, ch⟩, hic, ht⟩
      obtain ⟨hi, hch⟩ := (mem_enum_iff word i ch).mp hic
      rcases hlk : adjacencyLookup extraMap ch with _ | cs
      · rw [hlk] at ht
        simp at ht
      · rw [hlk] at ht
        simp only [List.mem_flatMap, List.mem_cons, List.mem_singleton,
          List.not_mem_nil, or_false] at ht
        obtain ⟨c, hc, ht⟩ := ht
        subst hch
        exact ⟨i, hi, cs, hlk, c, hc, ht⟩
    · rintro ⟨i, hi, cs, hlk, c, hc, ht⟩
      refine ⟨(i, word.getD i default), (mem_enum_iff word i _).mpr ⟨hi, rfl⟩, ?_⟩
      rw [hlk]
      simp only [List.mem_flatMap, List.mem_cons, List.mem_singleton,
        List.not_mem_nil, or_false]
      exact ⟨c, hc, ht⟩

theorem mem_generate_replacements_iff (word : Str) (extraMap : AdjacencyMap) (t : Str) :
    t ∈ generate_replacements word extraMap ↔
      ∃ i < word.length, ∃ cs,
        adjacencyLookup extraMap (word.getD i default) = some cs
        ∧ ∃ c ∈ cs, t = word.take i ++ [c] ++ word.drop (i + 1) := by
  by_cases hm : extraMap.isEmpty
  · have hm' : extraMap = [] := List.isEmpty_iff.mp hm
    subst hm'
    simp [generate_replacements, adjacencyLookup]
  · simp only [generate_replacements, if_neg hm, List.mem_flatMap]
    constructor
    · rintro ⟨⟨i, ch⟩, hic, ht⟩
      obtain ⟨hi, hch⟩ := (mem_enum_iff word i ch).mp hic
      rcases hlk : adjacencyLookup extraMap ch with _ | cs
      · rw [hlk] at ht
        simp at ht
      · rw [hlk] at ht
        simp only [List.mem_map] at ht
        obtain ⟨c, hc, ht⟩ := ht
        subst hch
        exact ⟨i, hi, cs, hlk, c, hc, ht.symm⟩
    · rintro ⟨i, hi, cs, hlk, c, hc, ht⟩
      refine ⟨(i, word.getD i default), (mem_enum_iff word i _).mpr ⟨hi, rfl⟩, ?_⟩
      rw [hlk]
      simp only [List.mem_map]
      exact ⟨c, hc, ht.symm⟩

/-- C7: the candidate typos generated for a word are exactly the adjacent
transpositions, the single-character deletions (only when the word has at
least 4 characters), the adjacency insertions placed after and before each
mapped position, and the adjacency substitutions; and the generation pipeline
(`process_word`) never emits a correction whose typo equals the word. -/
theorem c7_typo_generation_exact (word : Str) (extraMap : AdjacencyMap) :
    (∀ t, t ∈ generate_all_typos word (some extraMap) ↔
      ((∃ i, i + 1 < word.length
          ∧ t = word.take i ++ [word.getD (i + 1) default, word.getD i default]
              ++ word.drop (i + 2))
        ∨ (4 ≤ word.length ∧ ∃ i < word.length, t = word.take i ++ word.drop (i + 1))
        ∨ (∃ i < word.length, ∃ cs,
            adjacencyLookup extraMap (word.getD i default) = some cs
            ∧ ∃ c ∈ cs, (t = word.take (i + 1) ++ [c] ++ word.drop (i + 1)
                ∨ t = word.take i ++ [c] ++ word.drop i))
        ∨ (∃ i < word.length, ∃ cs,
            adjacencyLookup extraMap (word.getD i default) = some cs
            ∧ ∃ c ∈ cs, t = word.take i ++ [c] ++ word.drop (i + 1))))
    ∧ (∀ (validationSet sourceWords exclusions : List Str)
        (wildcardMatch : Str → Str → Bool) (thresholdPositive : Bool)
        (freqAtLeast : Str → Bool) (determineB : Str → Option BoundaryType)
        (c : Correction),
        c ∈ process_word word validationSet sourceWords (some extraMap) exclusions
            wildcardMatch thresholdPositive freqAtLeast determineB
        → c.1 ≠ word) := by
  constructor
  · intro t
    by_cases hm : extraMap.isEmpty
    · have hm' : extraMap = [] := List.isEmpty_iff.mp hm
      subst hm'
      simp only [generate_all_typos, List.isEmpty_nil, if_true, List.mem_append,
        mem_generate_transpositions_iff, mem_generate_deletions_iff]
      simp [adjacencyLookup]
    · simp only [generate_all_typos, if_neg hm, List.mem_append,
        mem_generate_transpositions_iff, mem_generate_deletions_iff,
        mem_generate_extra_letters_iff, mem_generate_replacements_iff]
      simp only [or_assoc]
  · intro validationSet sourceWords exclusions wildcardMatch thresholdPositive
      freqAtLeast determineB c hc
    simp only [process_word, List.mem_filterMap] at hc
    obtain ⟨typo, -, hsome⟩ := hc
    by_cases h : typo = word
    · rw [if_pos h] at hsome
      cases hsome
    · rw [if_neg h] at hsome
      split_ifs at hsome
      rcases hdb : determineB typo with _ | b
      all_goals rw [hdb] at hsome
      · cases hsome
      · simp only [Option.some.injEq] at hsome
        rw [← hsome]
        exact h

/-- C7 witness. -/
theorem c7_typo_generation_exact_witness :
    (("hte".toList, "the".toList, BoundaryType.NONE) : Correction).1 ≠ "the".toList :=
  (c7_typo_generation_exact "the".toList []).2 [] [] [] (fun _ _ => false) false
    (fun _ => false) (fun _ => some BoundaryType.NONE)
    ("hte".toList, "the".toList, BoundaryType.NONE) (by decide)

theorem singleton_isPrefixOf_iff (a : Char) (l : Str) :
    ([a] : Str).isPrefixOf l = true ↔ l.head? = some a := by
  cases l with
  | nil => simp [List.isPrefixOf]
  | cons x xs =>
    simp only [List.isPrefixOf, List.head?_cons, Option.some.injEq]
    constructor
    · rintro h
      simp only [Bool.and_eq_true, beq_iff_eq] at h
      exact h.1.symm
    · rintro rfl
      simp

theorem singleton_isSuffixOf_iff (a : Char) (l : Str) :
    ([a] : Str).isSuffixOf l = true ↔ l.getLast? = some a := by
  show ([a] : Str).reverse.isPrefixOf l.reverse = true ↔ _
  rw [show ([a] : Str).reverse = [a] from rfl, singleton_isPrefixOf_iff, List.head?_reverse]

theorem singleton_prefix_iff (a : Char) (l : Str) :
    ([a] : Str) <+: l ↔ l.head? = some a := by
  rw [← List.isPrefixOf_iff_prefix, singleton_isPrefixOf_iff]

theorem singleton_suffix_iff (a : Char) (l : Str) :
    ([a] : Str) <:+ l ↔ l.getLast? = some a := by
  rw [← List.isSuffixOf_iff_suffix, singleton_isSuffixOf_iff]

/-- C10: for every non-empty typo that neither starts nor ends with a colon,
parsing the QMK-formatted trigger recovers the original pair — the identity
holds for LEFT, RIGHT and BOTH, and formatting with NONE parses back with no
boundary. -/
theorem c10_format_parse_roundtrip (typo : Str) (h0 : typo ≠ [])
    (h1 : typo.head? ≠ some ':') (h2 : typo.getLast? ≠ some ':') :
    parse_boundary_markers (format_boundary_markers typo BoundaryType.LEFT)
      = (typo, some BoundaryType.LEFT)
    ∧ parse_boundary_markers (format_boundary_markers typo BoundaryType.RIGHT)
      = (typo, some BoundaryType.RIGHT)
    ∧ parse_boundary_markers (format_boundary_markers typo BoundaryType.BOTH)
      = (typo, some BoundaryType.BOTH)
    ∧ parse_boundary_markers (format_boundary_markers typo BoundaryType.NONE)
      = (typo, none) := by
  obtain ⟨t0, ts, rfl⟩ := List.exists_cons_of_ne_nil h0
  have ht0 : ¬ ':' = t0 := by
    intro h
    exact absurd h1 (by simp [h.symm])
  have hnosuf : ¬ ([':'] : Str) <:+ (':' :: t0 :: ts) := by
    rw [singleton_suffix_iff, List.getLast?_cons_cons]
    exact h2
  have hsufcolon : ([':'] : Str) <:+ (t0 :: (ts ++ [':'])) := by
    rw [singleton_suffix_iff]
    show ((t0 :: ts) ++ [':'] : Str).getLast? = some ':'
    exact List.getLast?_concat _
  have hbothsuf : ([':'] : Str) <:+ (':' :: (t0 :: (ts ++ [':']))) := by
    rw [singleton_suffix_iff]
    show ((':' :: t0 :: ts) ++ [':'] : Str).getLast? = some ':'
    exact List.getLast?_concat _
  have hnosuf2 : ¬ ([':'] : Str) <:+ (t0 :: ts) := by
    rw [singleton_suffix_iff]
    exact h2
  have hdrop : (t0 :: (ts ++ [':']) : Str).dropLast = t0 :: ts := by
    show ((t0 :: ts) ++ [':'] : Str).dropLast = t0 :: ts
    exact List.dropLast_concat
  refine ⟨?_, ?_, ?_, ?_⟩
  · simp [parse_boundary_markers, format_boundary_markers, hnosuf]
  · simp [parse_boundary_markers, format_boundary_markers, ht0, hsufcolon, hdrop]
  · simp [parse_boundary_markers, format_boundary_markers, hbothsuf, hdrop]
  · simp [parse_boundary_markers, format_boundary_markers, ht0, hnosuf2]

/-- C10 witness. -/
theorem c10_format_parse_roundtrip_witness :
    parse_boundary_markers (format_boundary_markers "ab".toList BoundaryType.LEFT)
      = ("ab".toList, some BoundaryType.LEFT)
    ∧ parse_boundary_markers (format_boundary_markers "ab".toList BoundaryType.RIGHT)
      = ("ab".toList, some BoundaryType.RIGHT)
    ∧ parse_boundary_markers (format_boundary_markers "ab".toList BoundaryType.BOTH)
      = ("ab".toList, some BoundaryType.BOTH)
    ∧ parse_boundary_markers (format_boundary_markers "ab".toList BoundaryType.NONE)
      = ("ab".toList, none) :=
  c10_format_parse_roundtrip "ab".toList (by decide) (by decide) (by decide)
